import Mathlib

/-!
Shallow embedding of the tempuscache package (cache.go, eviction.go, item.go,
options.go): an in-memory key-value cache with per-key TTL and LRU eviction.

Modelling conventions:
* The Go doubly linked list of the cache is modelled as a `List Nat` of node
  identifiers, front (most recently used) first; the payload of each node
  (the `*Item` stored in `Element.Value`) lives in a total function
  `items : Nat → Item V`, mirroring the fact that a Go list element always
  carries a valid `*Item` pointer.  Fresh identifiers come from `nextId`.
* The Go map `data map[string]*list.Element` is an association list from
  keys to node identifiers.
* Instants and durations (`time.Time`, `time.Duration`, `UnixNano`) are
  unbounded integers; Go declares `UnixNano` undefined outside the
  representable range, so wrap-around of time values is not modelled.
* The `uint64` statistics counters wrap modulo `2 ^ 64`.
* Values (Go `interface` values) are a type parameter `V`.
* `Stop` models closing `stopChan`: closing an already closed channel is a
  Go runtime panic, modelled as `Except.error`.
-/

/-- The modulus `2 ^ 64` of the `uint64` statistics counters. -/
def U64 : Nat := 2 ^ 64

/-- The atomic storage unit (item.go): key, opaque value, expiration in
Unix nanoseconds, where `0` is the never-expires sentinel. -/
structure Item (V : Type) where
  key : String
  value : V
  expiration : Int
deriving DecidableEq

/-- Predicate `Item.Expired` (item.go): `false` for the sentinel `0`, otherwise
expired when the current instant is strictly past the expiration. -/
def Item.Expired {V : Type} (i : Item V) (now : Int) : Bool :=
  if i.expiration = 0 then false else decide (i.expiration < now)

/-- Lookup in the key-to-node association list (the Go map read). -/
def mapLookup (k : String) (l : List (String × Nat)) : Option Nat :=
  (l.find? (fun p => p.1 == k)).map Prod.snd

/-- Deletion from the key-to-node association list (the Go `delete`). -/
def mapErase (k : String) (l : List (String × Nat)) : List (String × Nat) :=
  l.filter (fun p => !(p.1 == k))

/-- Insertion into the key-to-node association list (the Go map write). -/
def mapInsert (k : String) (v : Nat) (l : List (String × Nat)) :
    List (String × Nat) :=
  (k, v) :: mapErase k l

/-- The state of a `Cache` (cache.go): index map, recency list, node
payload store, configuration, stop channel state, statistics, and the
fresh-identifier counter for list nodes. -/
structure CacheState (V : Type) where
  dataMap : List (String × Nat)
  lru : List Nat
  items : Nat → Item V
  maxEntries : Int
  interval : Int
  stopClosed : Bool
  hits : Nat
  misses : Nat
  evictions : Nat
  nextId : Nat

/-- Go `list.MoveToFront`: a no-op when the element is not in the list
(unreachable in this program), otherwise moves it to the head. -/
def moveToFront (e : Nat) (l : List Nat) : List Nat :=
  if e ∈ l then e :: l.erase e else l

/-- Removal primitive `Cache.removeElement` (eviction.go): detach the node from the recency
list, then delete the key stored in the node from the index map. -/
def removeElement {V : Type} (s : CacheState V) (e : Nat) : CacheState V :=
  { s with lru := s.lru.erase e,
           dataMap := mapErase (s.items e).key s.dataMap }

/-- Eviction `Cache.evictOldest` (eviction.go): remove the back of the recency list,
if any, and increment the eviction counter. -/
def evictOldest {V : Type} (s : CacheState V) : CacheState V :=
  match s.lru.getLast? with
  | some e =>
      let t := removeElement s e
      { t with evictions := (t.evictions + 1) % U64 }
  | none => s

/-- Operation `Cache.Set` (cache.go): update-in-place and move-to-front for a present
key (recomputing the expiration only when `0 < ttl`); otherwise evict the
oldest entry when a positive capacity bound is reached by the list length,
then push a fresh node holding the new item to the front. -/
def Cache.Set {V : Type} (s : CacheState V) (key : String) (value : V)
    (ttl : Int) (now : Int) : CacheState V :=
  match mapLookup key s.dataMap with
  | some e =>
      { s with
        items := fun n =>
          if n = e then
            { key := (s.items e).key, value := value,
              expiration :=
                if 0 < ttl then now + ttl else (s.items e).expiration }
          else s.items n,
        lru := moveToFront e s.lru }
  | none =>
      let t :=
        if 0 < s.maxEntries ∧ s.maxEntries ≤ (s.lru.length : Int) then
          evictOldest s
        else s
      let exp : Int := if 0 < ttl then now + ttl else 0
      let e := t.nextId
      { t with
        items := fun n =>
          if n = e then { key := key, value := value, expiration := exp }
          else t.items n,
        lru := e :: t.lru,
        dataMap := mapInsert key e t.dataMap,
        nextId := e + 1 }

/-- Operation `Cache.Get` (cache.go): returns the new state, the value, and the found
flag; misses count absent keys and lazily removed expired keys, hits move
the node to the front. -/
def Cache.Get {V : Type} (s : CacheState V) (key : String) (now : Int) :
    CacheState V × Option V × Bool :=
  match mapLookup key s.dataMap with
  | none => ({ s with misses := (s.misses + 1) % U64 }, none, false)
  | some e =>
      let item := s.items e
      if item.Expired now then
        let t := removeElement s e
        ({ t with misses := (t.misses + 1) % U64 }, none, false)
      else
        ({ s with lru := moveToFront e s.lru,
                  hits := (s.hits + 1) % U64 },
         some item.value, true)

/-- Operation `Cache.Delete` (cache.go): deletes the key from the index map only;
the recency list is not touched. -/
def Cache.Delete {V : Type} (s : CacheState V) (key : String) :
    CacheState V :=
  { s with dataMap := mapErase key s.dataMap }

/-- One step of the `deleteExpired` loop body at a given node. -/
def sweepStep {V : Type} (now : Int) (s : CacheState V) (e : Nat) :
    CacheState V :=
  if (s.items e).Expired now then removeElement s e else s

/-- Sweep `Cache.deleteExpired` (cache.go): walk the recency list from back to
front, removing each expired node; only the visited node is ever removed,
so the visit order is the original back-to-front sequence. -/
def Cache.deleteExpired {V : Type} (s : CacheState V) (now : Int) :
    CacheState V :=
  s.lru.reverse.foldl (sweepStep now) s

/-- Operation `Cache.Stop` (cache.go): closing the stop channel; a second close is a
Go runtime panic, modelled as an error. -/
def Cache.Stop {V : Type} (s : CacheState V) :
    Except String (CacheState V) :=
  if s.stopClosed then Except.error "close of closed channel"
  else Except.ok { s with stopClosed := true }

/-- The functional options of options.go. -/
inductive CacheOption where
  | withCleanupInterval (d : Int)
  | withMaxEntries (n : Int)

/-- Application of one option to the cache under construction. -/
def applyOption {V : Type} (c : CacheState V) : CacheOption → CacheState V
  | .withCleanupInterval d => { c with interval := d }
  | .withMaxEntries n => { c with maxEntries := n }

/-- Constructor `New` (cache.go): empty map, empty list, open stop channel, zero
statistics, then the options applied in order.  Starting the janitor has no
effect on this state; its periodic sweeps appear as `deleteExpired` steps. -/
def Cache.New (V : Type) [Inhabited V] (opts : List CacheOption) :
    CacheState V :=
  opts.foldl applyOption
    { dataMap := [], lru := [],
      items := fun _ => { key := "", value := default, expiration := 0 },
      maxEntries := 0, interval := 0, stopClosed := false,
      hits := 0, misses := 0, evictions := 0, nextId := 0 }

/-- One client-visible operation of the cache, together with the instant
(`time.Now().UnixNano()`) at which it runs; `sweep` is one tick of the
janitor. -/
inductive Op (V : Type) where
  | set (key : String) (value : V) (ttl : Int) (now : Int)
  | get (key : String) (now : Int)
  | del (key : String)
  | sweep (now : Int)

/-- The state transition of one operation. -/
def stepOp {V : Type} (s : CacheState V) : Op V → CacheState V
  | .set k v ttl now => Cache.Set s k v ttl now
  | .get k now => (Cache.Get s k now).1
  | .del k => Cache.Delete s k
  | .sweep now => Cache.deleteExpired s now

/-- Run of a finite sequence of operations. -/
def runOps {V : Type} (s : CacheState V) (ops : List (Op V)) : CacheState V :=
  ops.foldl stepOp s

/-- The number of `get` operations of the trace that report found. -/
def hitCount {V : Type} : CacheState V → List (Op V) → Nat
  | _, [] => 0
  | s, op :: ops =>
      (match op with
       | .get k now => if (Cache.Get s k now).2.2 then 1 else 0
       | _ => 0) + hitCount (stepOp s op) ops

/-- The number of `get` operations of the trace that report not-found. -/
def missCount {V : Type} : CacheState V → List (Op V) → Nat
  | _, [] => 0
  | s, op :: ops =>
      (match op with
       | .get k now => if (Cache.Get s k now).2.2 then 0 else 1
       | _ => 0) + missCount (stepOp s op) ops

/-- The number of capacity evictions of the trace: `set` operations on an
absent key arriving while a positive capacity bound is reached by the
recency-list length. -/
def evictCount {V : Type} : CacheState V → List (Op V) → Nat
  | _, [] => 0
  | s, op :: ops =>
      (match op with
       | .set k _ _ _ =>
          if mapLookup k s.dataMap = none ∧ 0 < s.maxEntries ∧
              s.maxEntries ≤ (s.lru.length : Int) then 1 else 0
       | _ => 0) + evictCount (stepOp s op) ops

/-- The node identifiers `start + len - 1, …, start + 1, start`: the
recency list obtained by pushing `len` fresh nodes to the front. -/
def idsOf (start len : Nat) : List Nat := (List.range' start len).reverse

/-- Insertion of a batch of keys in order, all with `ttl = 0`, the value
of key `k` being `vf k`. -/
def setAll {V : Type} (vf : String → V) (now : Int) (s : CacheState V)
    (ks : List String) : CacheState V :=
  ks.foldl (fun st k => Cache.Set st k (vf k) 0 now) s

/-! ### Basic lemmas about the association-list map -/

theorem mapLookup_cons (k k' : String) (v : Nat) (l : List (String × Nat)) :
    mapLookup k ((k', v) :: l) =
      if k' = k then some v else mapLookup k l := by
  by_cases h : k' = k
  · simp [mapLookup, List.find?_cons, h]
  · simp [mapLookup, List.find?_cons, h]

theorem mapLookup_mapErase (k k' : String) (l : List (String × Nat)) :
    mapLookup k (mapErase k' l) =
      if k = k' then none else mapLookup k l := by
  induction l with
  | nil => simp [mapLookup, mapErase]
  | cons p l ih =>
    obtain ⟨k₀, v₀⟩ := p
    by_cases h : k₀ = k'
    · subst h
      by_cases hk : k = k₀
      · subst hk
        simpa [mapErase, mapLookup_cons] using ih
      · simp only [mapErase, List.filter_cons] at ih ⊢
        simp only [beq_self_eq_true, Bool.not_true, if_neg, reduceIte]
        rw [show mapLookup k ((k₀, v₀) :: l) = mapLookup k l by
          rw [mapLookup_cons]; simp [hk, Ne.symm hk]]
        simpa [hk] using ih
    · have : mapErase k' ((k₀, v₀) :: l) = (k₀, v₀) :: mapErase k' l := by
        simp [mapErase, List.filter_cons, h]
      rw [this, mapLookup_cons]
      by_cases hk : k₀ = k
      · subst hk
        have : ¬ k₀ = k' := h
        rw [mapLookup_cons]
        simp [this]
      · rw [mapLookup_cons]
        simp only [if_neg hk]
        exact ih

theorem mapErase_of_lookup_none (k : String) (l : List (String × Nat))
    (h : mapLookup k l = none) : mapErase k l = l := by
  induction l with
  | nil => rfl
  | cons p l ih =>
    obtain ⟨k₀, v₀⟩ := p
    rw [mapLookup_cons] at h
    by_cases hk : k₀ = k
    · simp [hk] at h
    · simp only [if_neg hk] at h
      have : mapErase k ((k₀, v₀) :: l) = (k₀, v₀) :: mapErase k l := by
        simp [mapErase, List.filter_cons, hk]
      rw [this, ih h]

/-- Eviction of the oldest node changes only the recency list, the index
map and the eviction counter. -/
theorem evictOldest_preserves {V : Type} (s : CacheState V) :
    (evictOldest s).items = s.items ∧
    (evictOldest s).nextId = s.nextId ∧
    (evictOldest s).hits = s.hits ∧
    (evictOldest s).misses = s.misses ∧
    (evictOldest s).maxEntries = s.maxEntries ∧
    (evictOldest s).stopClosed = s.stopClosed := by
  cases h : s.lru.getLast? <;> simp [evictOldest, h, removeElement]

/-! ### The constructed state -/

theorem applyOption_fields {V : Type} (c : CacheState V) (o : CacheOption) :
    (applyOption c o).dataMap = c.dataMap ∧
    (applyOption c o).lru = c.lru ∧
    (applyOption c o).items = c.items ∧
    (applyOption c o).stopClosed = c.stopClosed ∧
    (applyOption c o).hits = c.hits ∧
    (applyOption c o).misses = c.misses ∧
    (applyOption c o).evictions = c.evictions ∧
    (applyOption c o).nextId = c.nextId := by
  cases o <;> exact ⟨rfl, rfl, rfl, rfl, rfl, rfl, rfl, rfl⟩

theorem foldl_applyOption_fields {V : Type} :
    ∀ (opts : List CacheOption) (c : CacheState V),
    (opts.foldl applyOption c).dataMap = c.dataMap ∧
    (opts.foldl applyOption c).lru = c.lru ∧
    (opts.foldl applyOption c).items = c.items ∧
    (opts.foldl applyOption c).stopClosed = c.stopClosed ∧
    (opts.foldl applyOption c).hits = c.hits ∧
    (opts.foldl applyOption c).misses = c.misses ∧
    (opts.foldl applyOption c).evictions = c.evictions ∧
    (opts.foldl applyOption c).nextId = c.nextId := by
  intro opts
  induction opts with
  | nil => intro c; exact ⟨rfl, rfl, rfl, rfl, rfl, rfl, rfl, rfl⟩
  | cons o opts ih =>
    intro c
    have h1 := applyOption_fields c o
    have h2 := ih (applyOption c o)
    simp only [List.foldl_cons]
    exact ⟨h2.1.trans h1.1, h2.2.1.trans h1.2.1, h2.2.2.1.trans h1.2.2.1,
      h2.2.2.2.1.trans h1.2.2.2.1, h2.2.2.2.2.1.trans h1.2.2.2.2.1,
      h2.2.2.2.2.2.1.trans h1.2.2.2.2.2.1,
      h2.2.2.2.2.2.2.1.trans h1.2.2.2.2.2.2.1,
      h2.2.2.2.2.2.2.2.trans h1.2.2.2.2.2.2.2⟩

theorem cacheNew_fields (V : Type) [Inhabited V] (opts : List CacheOption) :
    (Cache.New V opts).dataMap = [] ∧
    (Cache.New V opts).lru = [] ∧
    (Cache.New V opts).stopClosed = false ∧
    (Cache.New V opts).hits = 0 ∧
    (Cache.New V opts).misses = 0 ∧
    (Cache.New V opts).evictions = 0 ∧
    (Cache.New V opts).nextId = 0 := by
  have h := foldl_applyOption_fields (V := V) opts
    { dataMap := [], lru := [],
      items := fun _ => { key := "", value := default, expiration := 0 },
      maxEntries := 0, interval := 0, stopClosed := false,
      hits := 0, misses := 0, evictions := 0, nextId := 0 }
  exact ⟨h.1, h.2.1, h.2.2.2.1, h.2.2.2.2.1,
    h.2.2.2.2.2.1, h.2.2.2.2.2.2.1, h.2.2.2.2.2.2.2⟩

/-! ### Claims C1, C2, C3: Delete, the index/list invariant, and the
capacity check -/

/-- Claim C1.  The claimed invariant — a key is in the index if and only if
its node is in the recency list, with removal from both always performed
together — is broken by `Delete`: on the concrete input of one `Set`
followed by one `Delete`, the key is gone from the index while its node
(still carrying the key) remains in the recency list. -/
theorem c1_delete_leaves_orphan_node :
    mapLookup "a"
        (Cache.Delete (Cache.Set (Cache.New Nat []) "a" 1 0 0) "a").dataMap
      = none ∧
    (Cache.Delete (Cache.Set (Cache.New Nat []) "a" 1 0 0) "a").lru = [0] ∧
    ((Cache.Delete (Cache.Set (Cache.New Nat []) "a" 1 0 0) "a").items 0).key
      = "a" := by
  refine ⟨by decide, by decide, by decide⟩

/-- Claim C2, counterexample.  With `maxEntries = 1`, after `Set "a"` and
`Delete "a"` the index is empty (zero live entries, strictly below the
bound) and `"b"` is absent, yet `Set "b"` performs an eviction (the
eviction counter becomes 1): the capacity check uses the recency-list
length, which still counts the orphaned node of `"a"`, not the live-entry
count. -/
theorem c2_eviction_below_live_count :
    (Cache.Delete
        (Cache.Set (Cache.New Nat [CacheOption.withMaxEntries 1]) "a" 1 0 0)
        "a").dataMap = [] ∧
    (Cache.Delete
        (Cache.Set (Cache.New Nat [CacheOption.withMaxEntries 1]) "a" 1 0 0)
        "a").maxEntries = 1 ∧
    mapLookup "b"
      (Cache.Delete
        (Cache.Set (Cache.New Nat [CacheOption.withMaxEntries 1]) "a" 1 0 0)
        "a").dataMap = none ∧
    (Cache.Set
      (Cache.Delete
        (Cache.Set (Cache.New Nat [CacheOption.withMaxEntries 1]) "a" 1 0 0)
        "a")
      "b" 2 0 0).evictions = 1 := by
  refine ⟨by decide, by decide, by decide, by decide⟩

/-- Claim C2, amended.  For a `Set` of an absent key, eviction is governed
by the recency-list length (which counts orphaned nodes), not the
live-entry count: when a positive bound is configured and the list length
has reached it, the tail node is removed and the eviction counter
incremented before the new entry is inserted; otherwise no eviction
occurs and the node is simply pushed to the front.  In both cases the new
key ends up mapped to the fresh node. -/
theorem c2_capacity_checks_list_length {V : Type} (s : CacheState V)
    (k : String) (v : V) (ttl now : Int)
    (habs : mapLookup k s.dataMap = none)
    (hnd : s.lru.Nodup)
    (hfresh : ∀ m ∈ s.lru, m < s.nextId) :
    ((0 < s.maxEntries ∧ s.maxEntries ≤ (s.lru.length : Int)) →
      (Cache.Set s k v ttl now).evictions = (s.evictions + 1) % U64 ∧
      (∀ t, s.lru.getLast? = some t → t ∉ (Cache.Set s k v ttl now).lru) ∧
      mapLookup k (Cache.Set s k v ttl now).dataMap = some s.nextId) ∧
    (¬ (0 < s.maxEntries ∧ s.maxEntries ≤ (s.lru.length : Int)) →
      (Cache.Set s k v ttl now).evictions = s.evictions ∧
      (Cache.Set s k v ttl now).lru = s.nextId :: s.lru ∧
      mapLookup k (Cache.Set s k v ttl now).dataMap = some s.nextId) := by
  constructor
  · intro hcap
    have hlen : s.lru ≠ [] := by
      intro hnil
      rw [hnil] at hcap
      simp at hcap
      omega
    obtain ⟨t₀, ht₀⟩ : ∃ t₀, s.lru.getLast? = some t₀ := by
      cases h : s.lru.getLast? with
      | none => exact absurd (List.getLast?_eq_none_iff.mp h) hlen
      | some t₀ => exact ⟨t₀, rfl⟩
    have ht₀mem : t₀ ∈ s.lru := List.mem_of_getLast?_eq_some ht₀
    refine ⟨?_, ?_, ?_⟩
    · simp only [Cache.Set, habs, if_pos hcap, evictOldest, ht₀]
      rfl
    · intro t ht
      rw [ht₀] at ht
      injection ht with ht
      subst ht
      simp only [Cache.Set, habs, if_pos hcap, evictOldest, ht₀]
      intro hmem
      rcases List.mem_cons.mp hmem with h | h
      · exact absurd h (Nat.ne_of_lt (hfresh t₀ ht₀mem))
      · exact (hnd.mem_erase_iff.mp h).1 rfl
    · simp only [Cache.Set, habs, if_pos hcap, evictOldest, ht₀]
      rw [mapInsert, mapLookup_cons]
      simp
      rfl
  · intro hcap
    refine ⟨?_, ?_, ?_⟩
    · simp only [Cache.Set, habs, if_neg hcap]
    · simp only [Cache.Set, habs, if_neg hcap]
    · simp only [Cache.Set, habs, if_neg hcap]
      rw [mapInsert, mapLookup_cons]
      simp

/-- Claim C2, witness for the amended theorem, at a concrete at-capacity
state. -/
theorem c2_capacity_checks_list_length_witness :
    (Cache.Set (Cache.Set (Cache.New Nat [CacheOption.withMaxEntries 1])
        "a" 1 0 0) "b" 2 0 0).evictions = 1 ∧
    mapLookup "b"
      (Cache.Set (Cache.Set (Cache.New Nat [CacheOption.withMaxEntries 1])
        "a" 1 0 0) "b" 2 0 0).dataMap = some 1 := by
  have h := c2_capacity_checks_list_length
    (Cache.Set (Cache.New Nat [CacheOption.withMaxEntries 1]) "a" 1 0 0)
    "b" 2 0 0 (by decide) (by decide) (by decide)
  have hcap := h.1 (by decide)
  exact ⟨hcap.1, hcap.2.2⟩

/-- Claim C3.  `Delete` of a present key mutates only the index map (the
recency list, the item store, the statistics, the configuration and the
identifier counter are all unchanged, so the orphaned node keeps counting
towards the list length); and, concretely, after `Set "a"`, `Delete "a"`,
`Set "a"` again and two more inserts filling a capacity of 3, the orphaned
node of `"a"` reaches the tail, and its capacity eviction deletes the
index mapping of the re-inserted live `"a"` (which was present just
before) and increments the eviction counter, while the live node of `"a"`
stays behind in the list. -/
theorem c3_delete_frame_and_orphan_eviction :
    (∀ (V : Type) (s : CacheState V) (k : String),
      mapLookup k s.dataMap ≠ none →
      (Cache.Delete s k).lru = s.lru ∧
      (Cache.Delete s k).items = s.items ∧
      (Cache.Delete s k).hits = s.hits ∧
      (Cache.Delete s k).misses = s.misses ∧
      (Cache.Delete s k).evictions = s.evictions ∧
      (Cache.Delete s k).maxEntries = s.maxEntries ∧
      (Cache.Delete s k).nextId = s.nextId ∧
      (Cache.Delete s k).dataMap = mapErase k s.dataMap ∧
      mapLookup k (Cache.Delete s k).dataMap = none) ∧
    (mapLookup "a"
        (Cache.Set (Cache.Set
          (Cache.Delete
            (Cache.Set (Cache.New Nat [CacheOption.withMaxEntries 3])
              "a" 1 0 0) "a")
          "a" 2 0 0) "b" 3 0 0).dataMap = some 1 ∧
     (Cache.Set (Cache.Set
          (Cache.Delete
            (Cache.Set (Cache.New Nat [CacheOption.withMaxEntries 3])
              "a" 1 0 0) "a")
          "a" 2 0 0) "b" 3 0 0).evictions = 0 ∧
     mapLookup "a"
        (Cache.Set (Cache.Set (Cache.Set
          (Cache.Delete
            (Cache.Set (Cache.New Nat [CacheOption.withMaxEntries 3])
              "a" 1 0 0) "a")
          "a" 2 0 0) "b" 3 0 0) "c" 4 0 0).dataMap = none ∧
     (Cache.Set (Cache.Set (Cache.Set
          (Cache.Delete
            (Cache.Set (Cache.New Nat [CacheOption.withMaxEntries 3])
              "a" 1 0 0) "a")
          "a" 2 0 0) "b" 3 0 0) "c" 4 0 0).evictions = 1 ∧
     1 ∈ (Cache.Set (Cache.Set (Cache.Set
          (Cache.Delete
            (Cache.Set (Cache.New Nat [CacheOption.withMaxEntries 3])
              "a" 1 0 0) "a")
          "a" 2 0 0) "b" 3 0 0) "c" 4 0 0).lru ∧
     ((Cache.Set (Cache.Set (Cache.Set
          (Cache.Delete
            (Cache.Set (Cache.New Nat [CacheOption.withMaxEntries 3])
              "a" 1 0 0) "a")
          "a" 2 0 0) "b" 3 0 0) "c" 4 0 0).items 1).key = "a") := by
  constructor
  · intro V s k _
    refine ⟨rfl, rfl, rfl, rfl, rfl, rfl, rfl, rfl, ?_⟩
    show mapLookup k (mapErase k s.dataMap) = none
    rw [mapLookup_mapErase]
    simp
  · refine ⟨by decide, by decide, by decide, by decide, by decide, by decide⟩

/-- Claim C3, witness for the universal frame part at a present key. -/
theorem c3_delete_frame_witness :
    (Cache.Delete (Cache.Set (Cache.New Nat []) "a" 1 0 0) "a").lru
      = (Cache.Set (Cache.New Nat []) "a" 1 0 0).lru ∧
    mapLookup "a"
      (Cache.Delete (Cache.Set (Cache.New Nat []) "a" 1 0 0) "a").dataMap
      = none := by
  have h := c3_delete_frame_and_orphan_eviction.1 Nat
    (Cache.Set (Cache.New Nat []) "a" 1 0 0) "a" (by decide)
  exact ⟨h.1, h.2.2.2.2.2.2.2.2⟩

/-! ### Claim C9: idempotent deletion -/

/-- Claim C9.  Deleting an absent key is a no-op on the whole state;
deleting any key makes a subsequent `Get` of it report not-found; and
deleting twice equals deleting once. -/
theorem c9_idempotent_deletion {V : Type} :
    (∀ (s : CacheState V) (k : String),
      mapLookup k s.dataMap = none → Cache.Delete s k = s) ∧
    (∀ (s : CacheState V) (k : String) (now : Int),
      (Cache.Get (Cache.Delete s k) k now).2 = (none, false)) ∧
    (∀ (s : CacheState V) (k : String),
      Cache.Delete (Cache.Delete s k) k = Cache.Delete s k) := by
  refine ⟨?_, ?_, ?_⟩
  · intro s k h
    show { s with dataMap := mapErase k s.dataMap } = s
    rw [mapErase_of_lookup_none k _ h]
  · intro s k now
    have h : mapLookup k (Cache.Delete s k).dataMap = none := by
      show mapLookup k (mapErase k s.dataMap) = none
      rw [mapLookup_mapErase]
      simp
    simp [Cache.Get, h]
  · intro s k
    show { s with dataMap := mapErase k (mapErase k s.dataMap) }
        = Cache.Delete s k
    have h : mapLookup k (mapErase k s.dataMap) = none := by
      rw [mapLookup_mapErase]
      simp
    rw [mapErase_of_lookup_none k _ h]
    rfl

/-- Claim C9, witness: deleting `"a"` from a fresh cache changes nothing,
and a `Get` after a delete misses. -/
theorem c9_idempotent_deletion_witness :
    Cache.Delete (Cache.New Nat []) "a" = Cache.New Nat [] ∧
    (Cache.Get
      (Cache.Delete (Cache.Set (Cache.New Nat []) "a" 1 0 0) "a")
      "a" 0).2 = (none, false) := by
  exact ⟨c9_idempotent_deletion.1 (Cache.New Nat []) "a" (by decide),
    c9_idempotent_deletion.2.1
      (Cache.Set (Cache.New Nat []) "a" 1 0 0) "a" 0⟩

/-! ### Claim C10: Stop at most once -/

/-- Claim C10.  For every list of construction options (in particular the
empty one, where the janitor never runs), the first `Stop` on the freshly
constructed cache succeeds, and a second `Stop` on the resulting state
surfaces the Go panic for closing an already closed channel, modelled as
an error rather than a normal return. -/
theorem c10_stop_at_most_once {V : Type} [Inhabited V]
    (opts : List CacheOption) :
    Cache.Stop (Cache.New V opts) =
      Except.ok { Cache.New V opts with stopClosed := true } ∧
    Cache.Stop { Cache.New V opts with stopClosed := true } =
      Except.error "close of closed channel" := by
  have h := (cacheNew_fields V opts).2.2.1
  constructor
  · simp [Cache.Stop, h]
  · simp [Cache.Stop]

/-! ### Claim C6: updating a present key with non-positive ttl -/

/-- Claim C6.  A `Set` of an already present key updates the stored value
in place, leaves the index map and the statistics untouched, moves the
node to the head of the recency list, keeps the previously-set expiration
whenever `ttl ≤ 0`, and recomputes it to `now + ttl` exactly when
`0 < ttl`; no other node is modified. -/
theorem c6_update_ttl_nonpositive_keeps_expiration {V : Type}
    (s : CacheState V) (k : String) (v : V) (ttl now : Int) (e : Nat)
    (hpres : mapLookup k s.dataMap = some e) :
    (Cache.Set s k v ttl now).dataMap = s.dataMap ∧
    (Cache.Set s k v ttl now).hits = s.hits ∧
    (Cache.Set s k v ttl now).misses = s.misses ∧
    (Cache.Set s k v ttl now).evictions = s.evictions ∧
    ((Cache.Set s k v ttl now).items e).value = v ∧
    ((Cache.Set s k v ttl now).items e).key = (s.items e).key ∧
    (ttl ≤ 0 →
      ((Cache.Set s k v ttl now).items e).expiration
        = (s.items e).expiration) ∧
    (0 < ttl →
      ((Cache.Set s k v ttl now).items e).expiration = now + ttl) ∧
    (∀ m, m ≠ e → (Cache.Set s k v ttl now).items m = s.items m) ∧
    (e ∈ s.lru → (Cache.Set s k v ttl now).lru = e :: s.lru.erase e) := by
  refine ⟨?_, ?_, ?_, ?_, ?_, ?_, ?_, ?_, ?_, ?_⟩ <;>
    simp only [Cache.Set, hpres]
  · simp
  · simp
  · intro h
    simp [if_neg (not_lt.mpr h)]
  · intro h
    simp [if_pos h]
  · intro m hm
    simp [hm]
  · intro h
    simp [moveToFront, h]

/-- Claim C6, witness: `"a"` is set with expiration `5`, then updated with
`ttl = 0` at instant `7`; the value becomes `2` while the expiration stays
`5`. -/
theorem c6_update_ttl_nonpositive_keeps_expiration_witness :
    ((Cache.Set (Cache.Set (Cache.New Nat []) "a" 1 5 0) "a" 2 0 7).items
        0).expiration = 5 ∧
    ((Cache.Set (Cache.Set (Cache.New Nat []) "a" 1 5 0) "a" 2 0 7).items
        0).value = 2 := by
  have h := c6_update_ttl_nonpositive_keeps_expiration
    (Cache.Set (Cache.New Nat []) "a" 1 5 0) "a" 2 0 7 0 (by decide)
  exact ⟨(h.2.2.2.2.2.2.1 (by decide)).trans (by decide), h.2.2.2.2.1⟩

/-! ### Claim C5: TTL correctness of Get after Set -/

/-- Claim C5.  After `Set k v ttl now` with a positive ttl at a positive
instant (Go wall-clock instants are positive), a `Get` of `k` reports
not-found at every instant strictly past the expiration instant
`now + ttl` and returns the stored value at every instant up to it;
moreover, in every state, whenever `Get` reports found it returns the
value of an item that is not expired at that instant — an expired value
is never returned. -/
theorem c5_ttl_correctness {V : Type} (s : CacheState V) (k : String)
    (v : V) (ttl now fut : Int) (httl : 0 < ttl) (hnow : 0 < now) :
    ((now + ttl < fut) →
      (Cache.Get (Cache.Set s k v ttl now) k fut).2 = (none, false)) ∧
    ((fut ≤ now + ttl) →
      (Cache.Get (Cache.Set s k v ttl now) k fut).2 = (some v, true)) ∧
    (∀ (u : CacheState V) (k₂ : String) (t₂ : Int),
      (Cache.Get u k₂ t₂).2.2 = true →
      ∃ e, mapLookup k₂ u.dataMap = some e ∧
        (u.items e).Expired t₂ = false ∧
        (Cache.Get u k₂ t₂).2.1 = some (u.items e).value) := by
  have hexp : ¬ now + ttl = 0 := by omega
  have main : ∀ fut2 : Int, (Cache.Get (Cache.Set s k v ttl now) k fut2).2
      = if now + ttl < fut2 then (none, false) else (some v, true) := by
    intro fut2
    cases h : mapLookup k s.dataMap with
    | some e =>
      have hdm : (Cache.Set s k v ttl now).dataMap = s.dataMap := by
        simp [Cache.Set, h]
      have hitem : (Cache.Set s k v ttl now).items e
          = { key := (s.items e).key, value := v,
              expiration := now + ttl } := by
        simp [Cache.Set, h, if_pos httl]
      have hlook : mapLookup k (Cache.Set s k v ttl now).dataMap
          = some e := by rw [hdm]; exact h
      by_cases hf : now + ttl < fut2
      · simp [Cache.Get, hlook, hitem, Item.Expired, hexp, hf]
      · simp [Cache.Get, hlook, hitem, Item.Expired, hexp, hf]
    | none =>
      have hpre1 : (if 0 < s.maxEntries ∧ s.maxEntries ≤ (s.lru.length : Int)
          then evictOldest s else s).nextId = s.nextId := by
        split
        · exact evictOldest_preserves s |>.2.1
        · rfl
      have hpre2 : (if 0 < s.maxEntries ∧ s.maxEntries ≤ (s.lru.length : Int)
          then evictOldest s else s).items = s.items := by
        split
        · exact evictOldest_preserves s |>.1
        · rfl
      have hlook : mapLookup k (Cache.Set s k v ttl now).dataMap
          = some s.nextId := by
        simp only [Cache.Set, h]
        rw [mapInsert, mapLookup_cons, if_pos rfl, hpre1]
      have hitem : (Cache.Set s k v ttl now).items s.nextId
          = { key := k, value := v, expiration := now + ttl } := by
        simp only [Cache.Set, h]
        simp [hpre1, if_pos httl]
      by_cases hf : now + ttl < fut2
      · simp [Cache.Get, hlook, hitem, Item.Expired, hexp, hf]
      · simp [Cache.Get, hlook, hitem, Item.Expired, hexp, hf]
  refine ⟨?_, ?_, ?_⟩
  · intro hfut
    rw [main fut]
    simp [hfut]
  · intro hfut
    rw [main fut]
    simp [not_lt.mpr hfut]
  · intro u k₂ t₂ hfound
    cases h : mapLookup k₂ u.dataMap with
    | none => simp [Cache.Get, h] at hfound
    | some e =>
      cases he : (u.items e).Expired t₂ with
      | true => simp [Cache.Get, h, he] at hfound
      | false =>
        refine ⟨e, rfl, he, ?_⟩
        simp [Cache.Get, h, he]

/-- Claim C5, witness: `"a"` set at instant 3 with ttl 5 expires at 8;
a `Get` at 9 misses, a `Get` at 8 still returns the value. -/
theorem c5_ttl_correctness_witness :
    (Cache.Get (Cache.Set (Cache.New Nat []) "a" 1 5 3) "a" 9).2
      = (none, false) ∧
    (Cache.Get (Cache.Set (Cache.New Nat []) "a" 1 5 3) "a" 8).2
      = (some 1, true) := by
  exact ⟨(c5_ttl_correctness (Cache.New Nat []) "a" 1 5 3 9
      (by decide) (by decide)).1 (by decide),
    (c5_ttl_correctness (Cache.New Nat []) "a" 1 5 3 8
      (by decide) (by decide)).2.1 (by decide)⟩

/-! ### Claim C7: the never-expires sentinel -/

/-- Claim C7, counterexample.  `"a"` is set with ttl 5 at instant 0,
deleted (which orphans its node in the list), and set again with the
never-expires sentinel at instant 1; the janitor sweep at instant 10 then
removes the expired orphan and, with it, the index mapping of the live
sentinel entry: the key becomes unretrievable although no eviction
(counter still 0) and no deletion of the sentinel entry ever happened —
an expiration path removed a never-expires entry from the index. -/
theorem c7_sweep_removes_sentinel_key :
    mapLookup "a"
      (Cache.Set (Cache.Delete (Cache.Set (Cache.New Nat []) "a" 1 5 0) "a")
        "a" 2 0 1).dataMap = some 1 ∧
    ((Cache.Set (Cache.Delete (Cache.Set (Cache.New Nat []) "a" 1 5 0) "a")
        "a" 2 0 1).items 1).expiration = 0 ∧
    mapLookup "a"
      (Cache.deleteExpired
        (Cache.Set (Cache.Delete (Cache.Set (Cache.New Nat []) "a" 1 5 0) "a")
          "a" 2 0 1) 10).dataMap = none ∧
    (Cache.deleteExpired
        (Cache.Set (Cache.Delete (Cache.Set (Cache.New Nat []) "a" 1 5 0) "a")
          "a" 2 0 1) 10).evictions = 0 ∧
    (Cache.Get
      (Cache.deleteExpired
        (Cache.Set (Cache.Delete (Cache.Set (Cache.New Nat []) "a" 1 5 0) "a")
          "a" 2 0 1) 10) "a" 11).2.2 = false := by
  refine ⟨by decide, by decide, by decide, by decide, by decide⟩

/-- The active sweep never touches the item store, and it preserves the
index mapping and the list node of a never-expiring entry, provided no
other node of the swept portion carries the same key. -/
theorem sweep_foldl_preserve_key {V : Type} (now : Int) (k : String)
    (e : Nat) (I : Nat → Item V) (hI : (I e).expiration = 0) :
    ∀ (L : List Nat) (t : CacheState V), t.items = I →
      mapLookup k t.dataMap = some e →
      (∀ m ∈ L, (I m).key = k → m = e) →
      (L.foldl (sweepStep now) t).items = I ∧
      mapLookup k (L.foldl (sweepStep now) t).dataMap = some e ∧
      (e ∈ t.lru → e ∈ (L.foldl (sweepStep now) t).lru) := by
  intro L
  induction L with
  | nil =>
    intro t h1 h2 _
    exact ⟨h1, h2, fun h => h⟩
  | cons m L ih =>
    intro t h1 h2 h3
    simp only [List.foldl_cons]
    by_cases hex : (t.items m).Expired now
    · have hme : m ≠ e := by
        intro hme
        subst hme
        rw [h1] at hex
        simp [Item.Expired, hI] at hex
      have hkey : ¬ k = (I m).key := by
        intro hk
        exact hme (h3 m (List.mem_cons_self m L) hk.symm)
      have hstep : sweepStep now t m = removeElement t m := by
        simp [sweepStep, hex]
      rw [hstep]
      have hlook : mapLookup k (removeElement t m).dataMap = some e := by
        show mapLookup k (mapErase (t.items m).key t.dataMap) = some e
        rw [h1, mapLookup_mapErase, if_neg hkey]
        exact h2
      obtain ⟨r1, r2, r3⟩ := ih (removeElement t m) h1 hlook
        (fun m' hm' hk' => h3 m' (List.mem_cons_of_mem _ hm') hk')
      refine ⟨r1, r2, fun he => r3 ?_⟩
      exact (List.mem_erase_of_ne hme.symm).mpr he
    · have hstep : sweepStep now t m = t := by
        simp [sweepStep, hex]
      rw [hstep]
      exact ih t h1 h2 (fun m' hm' hk' => h3 m' (List.mem_cons_of_mem _ hm') hk')

/-- Claim C7, amended.  A never-expires entry is itself never removed by
either expiration path: the lazy check in `Get` reports it found and keeps
its mapping, and the sweep keeps its mapping and its node — provided no
orphaned node with the same key sits in the list (as the counterexample
shows, a prior `Delete` can leave such an orphan, and sweeping the expired
orphan deletes the live sentinel mapping).  Absent orphans, the entry can
leave the cache only via capacity eviction or explicit deletion. -/
theorem c7_sentinel_never_removed_by_expiration {V : Type}
    (s : CacheState V) (k : String) (e : Nat) (now : Int)
    (hpres : mapLookup k s.dataMap = some e)
    (hsent : (s.items e).expiration = 0)
    (horph : ∀ m ∈ s.lru, (s.items m).key = k → m = e) :
    (s.items e).Expired now = false ∧
    (Cache.Get s k now).2 = (some (s.items e).value, true) ∧
    mapLookup k ((Cache.Get s k now).1).dataMap = some e ∧
    (Cache.deleteExpired s now).items = s.items ∧
    mapLookup k (Cache.deleteExpired s now).dataMap = some e ∧
    (e ∈ s.lru → e ∈ (Cache.deleteExpired s now).lru) := by
  have hnotexp : (s.items e).Expired now = false := by
    simp [Item.Expired, hsent]
  have hsweep := sweep_foldl_preserve_key now k e s.items hsent
    s.lru.reverse s rfl hpres
    (fun m hm hk => horph m (List.mem_reverse.mp hm) hk)
  refine ⟨hnotexp, ?_, ?_, hsweep.1, hsweep.2.1, hsweep.2.2⟩
  · simp [Cache.Get, hpres, hnotexp]
  · simp only [Cache.Get, hpres, hnotexp]
    simp [hpres]

/-- Claim C7, witness: a sentinel entry set on a fresh cache survives a
`Get` at instant 99 and a sweep at instant 99. -/
theorem c7_sentinel_never_removed_by_expiration_witness :
    (Cache.Get (Cache.Set (Cache.New Nat []) "a" 1 0 0) "a" 99).2
      = (some 1, true) ∧
    mapLookup "a"
      (Cache.deleteExpired (Cache.Set (Cache.New Nat []) "a" 1 0 0)
        99).dataMap = some 0 := by
  have h := c7_sentinel_never_removed_by_expiration
    (Cache.Set (Cache.New Nat []) "a" 1 0 0) "a" 0 99
    (by decide) (by decide) (by decide)
  exact ⟨h.2.1, h.2.2.2.2.1⟩

/-! ### Claim C8: statistics accuracy -/

/-- The active sweep never changes any statistics counter. -/
theorem sweep_foldl_counters {V : Type} (now : Int) :
    ∀ (L : List Nat) (t : CacheState V),
    (L.foldl (sweepStep now) t).hits = t.hits ∧
    (L.foldl (sweepStep now) t).misses = t.misses ∧
    (L.foldl (sweepStep now) t).evictions = t.evictions := by
  intro L
  induction L with
  | nil => intro t; exact ⟨rfl, rfl, rfl⟩
  | cons m L ih =>
    intro t
    simp only [List.foldl_cons]
    by_cases hex : (t.items m).Expired now
    · rw [show sweepStep now t m = removeElement t m from by
        simp [sweepStep, hex]]
      obtain ⟨a, b, c⟩ := ih (removeElement t m)
      exact ⟨a, b, c⟩
    · rw [show sweepStep now t m = t from by simp [sweepStep, hex]]
      exact ih t

/-- One operation advances each statistics counter by exactly its
observable count: a found `get` adds one hit, a not-found `get` adds one
miss, a `set` of an absent key at capacity adds one eviction, and nothing
else moves any counter. -/
theorem stepOp_counters {V : Type} (s : CacheState V) (op : Op V)
    (hh : s.hits < U64) (hm : s.misses < U64) (he : s.evictions < U64) :
    (stepOp s op).hits = (s.hits + hitCount s [op]) % U64 ∧
    (stepOp s op).misses = (s.misses + missCount s [op]) % U64 ∧
    (stepOp s op).evictions = (s.evictions + evictCount s [op]) % U64 := by
  cases op with
  | get k now =>
    cases hl : mapLookup k s.dataMap with
    | none =>
      have hfl : (Cache.Get s k now).2.2 = false := by
        simp [Cache.Get, hl]
      refine ⟨?_, ?_, ?_⟩ <;>
        simp [stepOp, hitCount, missCount, evictCount, Cache.Get, hl, hfl,
          Nat.mod_eq_of_lt, hh, hm, he]
    | some e =>
      by_cases hex : (s.items e).Expired now
      · have hfl : (Cache.Get s k now).2.2 = false := by
          simp [Cache.Get, hl, hex]
        refine ⟨?_, ?_, ?_⟩ <;>
          simp [stepOp, hitCount, missCount, evictCount, Cache.Get, hl, hex,
            hfl, removeElement, Nat.mod_eq_of_lt, hh, hm, he]
      · have hfl : (Cache.Get s k now).2.2 = true := by
          simp [Cache.Get, hl, hex]
        refine ⟨?_, ?_, ?_⟩ <;>
          simp [stepOp, hitCount, missCount, evictCount, Cache.Get, hl, hex,
            hfl, Nat.mod_eq_of_lt, hh, hm, he]
  | del k =>
    refine ⟨?_, ?_, ?_⟩ <;>
      simp [stepOp, hitCount, missCount, evictCount, Cache.Delete,
        Nat.mod_eq_of_lt, hh, hm, he]
  | sweep now =>
    obtain ⟨a, b, c⟩ := sweep_foldl_counters now s.lru.reverse s
    have a2 : (Cache.deleteExpired s now).hits = s.hits := a
    have b2 : (Cache.deleteExpired s now).misses = s.misses := b
    have c2 : (Cache.deleteExpired s now).evictions = s.evictions := c
    refine ⟨?_, ?_, ?_⟩ <;>
      simp [stepOp, hitCount, missCount, evictCount,
        a2, b2, c2, Nat.mod_eq_of_lt, hh, hm, he]
  | set k v ttl now =>
    cases hl : mapLookup k s.dataMap with
    | some e =>
      have hs : Cache.Set s k v ttl now
          = { s with
              items := fun n =>
                if n = e then
                  { key := (s.items e).key, value := v,
                    expiration :=
                      if 0 < ttl then now + ttl else (s.items e).expiration }
                else s.items n,
              lru := moveToFront e s.lru } := by
        simp [Cache.Set, hl]
      refine ⟨?_, ?_, ?_⟩ <;>
        simp [stepOp, hitCount, missCount, evictCount, hs, hl,
          Nat.mod_eq_of_lt, hh, hm, he]
    | none =>
      by_cases hcap : 0 < s.maxEntries ∧ s.maxEntries ≤ (s.lru.length : Int)
      · have hnil : s.lru ≠ [] := by
          intro hn
          rw [hn] at hcap
          simp at hcap
          omega
        obtain ⟨t₀, ht₀⟩ : ∃ t₀, s.lru.getLast? = some t₀ := by
          cases hgl : s.lru.getLast? with
          | none => exact absurd (List.getLast?_eq_none_iff.mp hgl) hnil
          | some t₀ => exact ⟨t₀, rfl⟩
        have hev : (Cache.Set s k v ttl now).evictions
            = (s.evictions + 1) % U64 := by
          simp only [Cache.Set, hl, if_pos hcap, evictOldest, ht₀]
          rfl
        have hhits : (Cache.Set s k v ttl now).hits = s.hits := by
          simp only [Cache.Set, hl, if_pos hcap, evictOldest, ht₀]
          rfl
        have hmiss : (Cache.Set s k v ttl now).misses = s.misses := by
          simp only [Cache.Set, hl, if_pos hcap, evictOldest, ht₀]
          rfl
        refine ⟨?_, ?_, ?_⟩ <;>
          simp [stepOp, hitCount, missCount, evictCount, hl, hcap, hev,
            hhits, hmiss, Nat.mod_eq_of_lt, hh, hm, he]
      · have hev : (Cache.Set s k v ttl now).evictions = s.evictions := by
          simp only [Cache.Set, hl, if_neg hcap]
        have hhits : (Cache.Set s k v ttl now).hits = s.hits := by
          simp only [Cache.Set, hl, if_neg hcap]
        have hmiss : (Cache.Set s k v ttl now).misses = s.misses := by
          simp only [Cache.Set, hl, if_neg hcap]
        refine ⟨?_, ?_, ?_⟩ <;>
          simp [stepOp, hitCount, missCount, evictCount, hl, hcap, hev,
            hhits, hmiss, Nat.mod_eq_of_lt, hh, hm, he]

/-- Decomposition of the trace counts at a cons. -/
theorem hitCount_cons {V : Type} (s : CacheState V) (op : Op V)
    (ops : List (Op V)) :
    hitCount s (op :: ops) = hitCount s [op] + hitCount (stepOp s op) ops ∧
    missCount s (op :: ops)
      = missCount s [op] + missCount (stepOp s op) ops ∧
    evictCount s (op :: ops)
      = evictCount s [op] + evictCount (stepOp s op) ops := by
  refine ⟨?_, ?_, ?_⟩ <;> simp [hitCount, missCount, evictCount]

/-- Over any trace, each statistics counter ends at its starting value
plus the count of the corresponding events, modulo `2 ^ 64`. -/
theorem runOps_counters {V : Type} :
    ∀ (ops : List (Op V)) (s : CacheState V),
      s.hits < U64 → s.misses < U64 → s.evictions < U64 →
      (runOps s ops).hits = (s.hits + hitCount s ops) % U64 ∧
      (runOps s ops).misses = (s.misses + missCount s ops) % U64 ∧
      (runOps s ops).evictions = (s.evictions + evictCount s ops) % U64 := by
  intro ops
  induction ops with
  | nil =>
    intro s hh hm he
    refine ⟨?_, ?_, ?_⟩ <;>
      simp [runOps, hitCount, missCount, evictCount,
        Nat.mod_eq_of_lt, hh, hm, he]
  | cons op ops ih =>
    intro s hh hm he
    have hU : 0 < U64 := by norm_num [U64]
    obtain ⟨e1, e2, e3⟩ := stepOp_counters s op hh hm he
    have hh2 : (stepOp s op).hits < U64 := by
      rw [e1]; exact Nat.mod_lt _ hU
    have hm2 : (stepOp s op).misses < U64 := by
      rw [e2]; exact Nat.mod_lt _ hU
    have he2 : (stepOp s op).evictions < U64 := by
      rw [e3]; exact Nat.mod_lt _ hU
    obtain ⟨r1, r2, r3⟩ := ih (stepOp s op) hh2 hm2 he2
    obtain ⟨c1, c2, c3⟩ := hitCount_cons s op ops
    have hrun : runOps s (op :: ops) = runOps (stepOp s op) ops := by
      simp [runOps]
    refine ⟨?_, ?_, ?_⟩
    · rw [hrun, r1, e1, Nat.mod_add_mod, c1, Nat.add_assoc]
    · rw [hrun, r2, e2, Nat.mod_add_mod, c2, Nat.add_assoc]
    · rw [hrun, r3, e3, Nat.mod_add_mod, c3, Nat.add_assoc]

/-- Claim C8.  Starting from a freshly constructed cache, as long as the
event counts stay below `2 ^ 64` (the width of the Go `uint64` counters),
the final hit counter equals the number of `get` operations of the trace
that reported found, the miss counter equals the number that reported
not-found (expiration-caused misses included), and the eviction counter
equals the number of capacity evictions; moreover neither the lazy
expiration path of `Get` nor the active sweep ever changes the eviction
counter. -/
theorem c8_stats_accuracy {V : Type} [Inhabited V] (opts : List CacheOption)
    (ops : List (Op V))
    (h1 : hitCount (Cache.New V opts) ops < U64)
    (h2 : missCount (Cache.New V opts) ops < U64)
    (h3 : evictCount (Cache.New V opts) ops < U64) :
    (runOps (Cache.New V opts) ops).hits
      = hitCount (Cache.New V opts) ops ∧
    (runOps (Cache.New V opts) ops).misses
      = missCount (Cache.New V opts) ops ∧
    (runOps (Cache.New V opts) ops).evictions
      = evictCount (Cache.New V opts) ops ∧
    (∀ (u : CacheState V) (k : String) (t : Int),
      ((Cache.Get u k t).1).evictions = u.evictions) ∧
    (∀ (u : CacheState V) (t : Int),
      (Cache.deleteExpired u t).evictions = u.evictions) := by
  have hf := cacheNew_fields V opts
  have hU : 0 < U64 := by norm_num [U64]
  obtain ⟨r1, r2, r3⟩ := runOps_counters ops (Cache.New V opts)
    (by rw [hf.2.2.2.1]; exact hU) (by rw [hf.2.2.2.2.1]; exact hU)
    (by rw [hf.2.2.2.2.2.1]; exact hU)
  refine ⟨?_, ?_, ?_, ?_, ?_⟩
  · rw [r1, hf.2.2.2.1, Nat.zero_add, Nat.mod_eq_of_lt h1]
  · rw [r2, hf.2.2.2.2.1, Nat.zero_add, Nat.mod_eq_of_lt h2]
  · rw [r3, hf.2.2.2.2.2.1, Nat.zero_add, Nat.mod_eq_of_lt h3]
  · intro u k t
    cases hl : mapLookup k u.dataMap with
    | none => simp [Cache.Get, hl]
    | some e =>
      by_cases hex : (u.items e).Expired t <;>
        simp [Cache.Get, hl, hex, removeElement]
  · intro u t
    exact (sweep_foldl_counters t u.lru.reverse u).2.2

/-- Claim C8, witness: a trace with one insert, one hit, one miss on a
fresh cache ends with a hit counter of 1 and a miss counter of 1. -/
theorem c8_stats_accuracy_witness :
    (runOps (Cache.New Nat [])
      [Op.set "a" 1 0 0, Op.get "a" 0, Op.get "b" 0]).hits = 1 ∧
    (runOps (Cache.New Nat [])
      [Op.set "a" 1 0 0, Op.get "a" 0, Op.get "b" 0]).misses = 1 ∧
    (runOps (Cache.New Nat [])
      [Op.set "a" 1 0 0, Op.get "a" 0, Op.get "b" 0]).evictions = 0 := by
  have h := c8_stats_accuracy []
    [Op.set "a" 1 0 0, Op.get "a" 0, Op.get "b" 0]
    (by decide) (by decide) (by decide)
  exact ⟨h.1.trans (by decide), h.2.1.trans (by decide),
    h.2.2.1.trans (by decide)⟩

/-! ### Claim C4: LRU eviction order -/

theorem idsOf_zero (s : Nat) : idsOf s 0 = [] := rfl

theorem idsOf_succ (s n : Nat) :
    idsOf s (n + 1) = idsOf (s + 1) n ++ [s] := by
  simp [idsOf, List.range'_succ]

theorem length_idsOf (s n : Nat) : (idsOf s n).length = n := by
  simp [idsOf]

theorem mem_idsOf {m s n : Nat} : m ∈ idsOf s n ↔ s ≤ m ∧ m < s + n := by
  simp [idsOf]

theorem getLast?_idsOf (s n : Nat) (h : n ≠ 0) :
    (idsOf s n).getLast? = some s := by
  unfold idsOf
  rw [List.getLast?_reverse, List.head?_range']
  simp [h]

/-- Filling a cache with a batch of distinct fresh keys, with enough spare
capacity: each key `ks[i]` ends mapped to node `nextId + i`, the nodes are
pushed in order in front of the old list, the identifier counter advances
by the batch size, no statistics change, and foreign keys and old nodes
are untouched. -/
theorem setAll_fill {V : Type} (vf : String → V) (now : Int) :
    ∀ (ks : List String) (s : CacheState V),
      ks.Nodup →
      (∀ k ∈ ks, mapLookup k s.dataMap = none) →
      ((s.lru.length : Int) + ks.length ≤ s.maxEntries) →
      (setAll vf now s ks).lru = idsOf s.nextId ks.length ++ s.lru ∧
      (setAll vf now s ks).nextId = s.nextId + ks.length ∧
      (setAll vf now s ks).maxEntries = s.maxEntries ∧
      (setAll vf now s ks).evictions = s.evictions ∧
      (setAll vf now s ks).hits = s.hits ∧
      (setAll vf now s ks).misses = s.misses ∧
      (∀ k, k ∉ ks →
        mapLookup k (setAll vf now s ks).dataMap = mapLookup k s.dataMap) ∧
      (∀ i (h : i < ks.length),
        mapLookup (ks.get ⟨i, h⟩) (setAll vf now s ks).dataMap
          = some (s.nextId + i)) ∧
      (∀ n, n < s.nextId → (setAll vf now s ks).items n = s.items n) ∧
      (∀ i (h : i < ks.length),
        (setAll vf now s ks).items (s.nextId + i)
          = { key := ks.get ⟨i, h⟩, value := vf (ks.get ⟨i, h⟩),
              expiration := 0 }) := by
  intro ks
  induction ks with
  | nil =>
    intro s _ _ _
    refine ⟨by simp [setAll, idsOf], by simp [setAll], rfl, rfl, rfl, rfl,
      fun k _ => rfl, fun i h => by simp at h, fun n _ => rfl,
      fun i h => by simp at h⟩
  | cons k ks ih =>
    intro s hnd hfresh hcap
    have habs : mapLookup k s.dataMap = none :=
      hfresh k (List.mem_cons_self k ks)
    have hknotin : k ∉ ks := (List.nodup_cons.mp hnd).1
    have hlcast : ((k :: ks).length : Int) = (ks.length : Int) + 1 := by
      push_cast [List.length_cons]
      ring
    have hcond : ¬ (0 < s.maxEntries ∧
        s.maxEntries ≤ (s.lru.length : Int)) := by
      rintro ⟨-, h2⟩
      rw [hlcast] at hcap
      omega
    have e1 : (Cache.Set s k (vf k) 0 now).lru = s.nextId :: s.lru := by
      simp only [Cache.Set, habs, if_neg hcond]
    have e2 : (Cache.Set s k (vf k) 0 now).nextId = s.nextId + 1 := by
      simp only [Cache.Set, habs, if_neg hcond]
    have e3 : (Cache.Set s k (vf k) 0 now).dataMap
        = mapInsert k s.nextId s.dataMap := by
      simp only [Cache.Set, habs, if_neg hcond]
    have e4 : (Cache.Set s k (vf k) 0 now).items
        = fun n => if n = s.nextId then
            { key := k, value := vf k, expiration := 0 }
          else s.items n := by
      simp only [Cache.Set, habs, if_neg hcond]
      simp
    have e5 : (Cache.Set s k (vf k) 0 now).maxEntries = s.maxEntries := by
      simp only [Cache.Set, habs, if_neg hcond]
    have e6 : (Cache.Set s k (vf k) 0 now).evictions = s.evictions := by
      simp only [Cache.Set, habs, if_neg hcond]
    have e7 : (Cache.Set s k (vf k) 0 now).hits = s.hits := by
      simp only [Cache.Set, habs, if_neg hcond]
    have e8 : (Cache.Set s k (vf k) 0 now).misses = s.misses := by
      simp only [Cache.Set, habs, if_neg hcond]
    have p2 : ∀ k₂ ∈ ks,
        mapLookup k₂ (Cache.Set s k (vf k) 0 now).dataMap = none := by
      intro k₂ hk₂
      rw [e3, mapInsert, mapLookup_cons,
        if_neg (fun (h : k = k₂) => hknotin (h.symm ▸ hk₂)),
        mapLookup_mapErase,
        if_neg (fun (h : k₂ = k) => hknotin (h ▸ hk₂))]
      exact hfresh k₂ (List.mem_cons_of_mem _ hk₂)
    have p3 : ((Cache.Set s k (vf k) 0 now).lru.length : Int)
        + ks.length ≤ (Cache.Set s k (vf k) 0 now).maxEntries := by
      rw [e1, e5, List.length_cons]
      rw [hlcast] at hcap
      push_cast
      omega
    obtain ⟨r1, r2, r3, r4, r5, r6, r7, r8, r9, r10⟩ :=
      ih (Cache.Set s k (vf k) 0 now) (List.nodup_cons.mp hnd).2 p2 p3
    have hsetcons : setAll vf now s (k :: ks)
        = setAll vf now (Cache.Set s k (vf k) 0 now) ks := by
      simp [setAll]
    refine ⟨?_, ?_, ?_, ?_, ?_, ?_, ?_, ?_, ?_, ?_⟩
    · rw [hsetcons, r1, e1, e2, List.length_cons, idsOf_succ]
      simp [List.append_assoc]
    · rw [hsetcons, r2, e2, List.length_cons]
      omega
    · rw [hsetcons, r3, e5]
    · rw [hsetcons, r4, e6]
    · rw [hsetcons, r5, e7]
    · rw [hsetcons, r6, e8]
    · intro k₂ hk₂
      have hk₂ks : k₂ ∉ ks := fun h => hk₂ (List.mem_cons_of_mem _ h)
      have hk₂k : ¬ k = k₂ := fun h => hk₂ (h ▸ List.mem_cons_self k ks)
      rw [hsetcons, r7 k₂ hk₂ks, e3, mapInsert, mapLookup_cons,
        if_neg hk₂k, mapLookup_mapErase, if_neg (fun h => hk₂k h.symm)]
    · intro i h
      match i with
      | 0 =>
        show mapLookup k (setAll vf now (Cache.Set s k (vf k) 0 now)
          ks).dataMap = some (s.nextId + 0)
        rw [r7 k hknotin, e3, mapInsert, mapLookup_cons, if_pos rfl,
          Nat.add_zero]
      | j + 1 =>
        have hj : j < ks.length := by
          rw [List.length_cons] at h
          omega
        show mapLookup (ks.get ⟨j, hj⟩)
          (setAll vf now (Cache.Set s k (vf k) 0 now) ks).dataMap
          = some (s.nextId + (j + 1))
        rw [r8 j hj, e2]
        congr 1
        omega
    · intro n hn
      rw [hsetcons, r9 n (by rw [e2]; omega), e4]
      simp [Nat.ne_of_lt hn]
    · intro i h
      match i with
      | 0 =>
        show (setAll vf now (Cache.Set s k (vf k) 0 now) ks).items
          (s.nextId + 0) = { key := k, value := vf k, expiration := 0 }
        rw [Nat.add_zero, r9 s.nextId (by rw [e2]; omega), e4]
        simp
      | j + 1 =>
        have hj : j < ks.length := by
          rw [List.length_cons] at h
          omega
        have harith : s.nextId + (j + 1)
            = (Cache.Set s k (vf k) 0 now).nextId + j := by
          rw [e2]
          omega
        show (setAll vf now (Cache.Set s k (vf k) 0 now) ks).items
          (s.nextId + (j + 1))
          = { key := ks.get ⟨j, hj⟩, value := vf (ks.get ⟨j, hj⟩),
              expiration := 0 }
        rw [harith, r10 j hj]

/-- Claim C4.  Start from an empty cache configured with `maxEntries = N`
(the hypotheses on `s0` are the fields of the freshly constructed state)
and insert the distinct keys `ks ++ [klast]` in order, `ks` of length `N`.
Part one: with no intervening read, exactly the first key inserted is
evicted — it is absent afterwards, every other key of `ks` is still mapped
(to its original node), the last key is mapped, and the eviction counter
is exactly 1.  Part two (for `2 ≤ N`, so that the second key differs from
the last): if the first key is read between the `N`-th and the last
insertion, the second key is the one evicted instead, the first key
remains present, and again exactly one eviction happens. -/
theorem c4_lru_eviction_order {V : Type} (N : Nat) (s0 : CacheState V)
    (ks : List String) (klast : String) (vf : String → V) (now fut : Int)
    (hdm0 : s0.dataMap = []) (hlru0 : s0.lru = []) (hnid0 : s0.nextId = 0)
    (hev0 : s0.evictions = 0) (hmax0 : s0.maxEntries = (N : Int))
    (hlen : ks.length = N) (hnd : (ks ++ [klast]).Nodup) :
    (0 < N →
      (∀ h0 : 0 < ks.length,
        mapLookup (ks.get ⟨0, h0⟩)
          (setAll vf now s0 (ks ++ [klast])).dataMap = none) ∧
      (∀ i (h : i < ks.length), 1 ≤ i →
        mapLookup (ks.get ⟨i, h⟩)
          (setAll vf now s0 (ks ++ [klast])).dataMap = some i) ∧
      mapLookup klast (setAll vf now s0 (ks ++ [klast])).dataMap
        = some N ∧
      (setAll vf now s0 (ks ++ [klast])).evictions = 1) ∧
    (2 ≤ N → ∀ (h0 : 0 < ks.length) (h1 : 1 < ks.length),
      mapLookup (ks.get ⟨1, h1⟩)
        (Cache.Set ((Cache.Get (setAll vf now s0 ks)
          (ks.get ⟨0, h0⟩) fut).1) klast (vf klast) 0 now).dataMap
        = none ∧
      mapLookup (ks.get ⟨0, h0⟩)
        (Cache.Set ((Cache.Get (setAll vf now s0 ks)
          (ks.get ⟨0, h0⟩) fut).1) klast (vf klast) 0 now).dataMap
        = some 0 ∧
      (∀ i (h : i < ks.length), 2 ≤ i →
        mapLookup (ks.get ⟨i, h⟩)
          (Cache.Set ((Cache.Get (setAll vf now s0 ks)
            (ks.get ⟨0, h0⟩) fut).1) klast (vf klast) 0 now).dataMap
          = some i) ∧
      mapLookup klast
        (Cache.Set ((Cache.Get (setAll vf now s0 ks)
          (ks.get ⟨0, h0⟩) fut).1) klast (vf klast) 0 now).dataMap
        = some N ∧
      (Cache.Set ((Cache.Get (setAll vf now s0 ks)
        (ks.get ⟨0, h0⟩) fut).1) klast (vf klast) 0 now).evictions
        = 1) := by
  have hksnd : ks.Nodup := (List.nodup_append.mp hnd).1
  have hdisj : ks.Disjoint [klast] := (List.nodup_append.mp hnd).2.2
  have hklastks : klast ∉ ks := fun h => hdisj h (by simp)
  have hfresh : ∀ k ∈ ks, mapLookup k s0.dataMap = none := by
    intro k _
    rw [hdm0]
    rfl
  have hcapfill : (s0.lru.length : Int) + ks.length ≤ s0.maxEntries := by
    rw [hlru0, hmax0, hlen]
    simp
  obtain ⟨r1, r2, r3, r4, r5, r6, r7, r8, r9, r10⟩ :=
    setAll_fill vf now ks s0 hksnd hfresh hcapfill
  have hlruN : (setAll vf now s0 ks).lru = idsOf 0 ks.length := by
    rw [r1, hnid0, hlru0, List.append_nil]
  have hnidN : (setAll vf now s0 ks).nextId = ks.length := by
    rw [r2, hnid0, Nat.zero_add]
  have hmaxN : (setAll vf now s0 ks).maxEntries = (N : Int) := by
    rw [r3, hmax0]
  have hevN : (setAll vf now s0 ks).evictions = 0 := by
    rw [r4, hev0]
  have habsN : mapLookup klast (setAll vf now s0 ks).dataMap = none := by
    rw [r7 klast hklastks, hdm0]
    rfl
  have hgeti : ∀ i (h : i < ks.length),
      mapLookup (ks.get ⟨i, h⟩) (setAll vf now s0 ks).dataMap
        = some i := by
    intro i h
    have := r8 i h
    rwa [hnid0, Nat.zero_add] at this
  have hitems : ∀ i (h : i < ks.length),
      (setAll vf now s0 ks).items i
        = { key := ks.get ⟨i, h⟩, value := vf (ks.get ⟨i, h⟩),
            expiration := 0 } := by
    intro i h
    have := r10 i h
    rwa [hnid0, Nat.zero_add] at this
  have hne_klast : ∀ i (h : i < ks.length), ¬ klast = ks.get ⟨i, h⟩ := by
    intro i h heq
    exact hklastks (by rw [heq]; exact List.get_mem ks i h)
  have hget_ne : ∀ i j (hi : i < ks.length) (hj : j < ks.length), i ≠ j →
      ¬ ks.get ⟨i, hi⟩ = ks.get ⟨j, hj⟩ := by
    intro i j hi hj hij heq
    exact hij (congrArg Fin.val (hksnd.get_inj_iff.mp heq))
  constructor
  · -- part one: no intervening read
    intro hN
    have hNne : ks.length ≠ 0 := by omega
    have h0lt : 0 < ks.length := by omega
    have hcapSet : 0 < (setAll vf now s0 ks).maxEntries ∧
        (setAll vf now s0 ks).maxEntries
          ≤ ((setAll vf now s0 ks).lru.length : Int) := by
      rw [hmaxN, hlruN, length_idsOf]
      constructor <;> omega
    have htail : (setAll vf now s0 ks).lru.getLast? = some 0 := by
      rw [hlruN]
      exact getLast?_idsOf 0 ks.length hNne
    have hfull : setAll vf now s0 (ks ++ [klast])
        = Cache.Set (setAll vf now s0 ks) klast (vf klast) 0 now := by
      simp [setAll, List.foldl_append]
    have fdm : (Cache.Set (setAll vf now s0 ks) klast (vf klast) 0
          now).dataMap
        = mapInsert klast (setAll vf now s0 ks).nextId
            (mapErase ((setAll vf now s0 ks).items 0).key
              (setAll vf now s0 ks).dataMap) := by
      simp only [Cache.Set, habsN, if_pos hcapSet, evictOldest, htail]
      rfl
    have fev : (Cache.Set (setAll vf now s0 ks) klast (vf klast) 0
          now).evictions = 1 := by
      simp only [Cache.Set, habsN, if_pos hcapSet, evictOldest, htail]
      show ((setAll vf now s0 ks).evictions + 1) % U64 = 1
      rw [hevN]
      norm_num [U64]
    refine ⟨?_, ?_, ?_, by rw [hfull]; exact fev⟩
    · intro h0
      rw [hfull, fdm, hitems 0 h0, mapInsert, mapLookup_cons,
        if_neg (hne_klast 0 h0), mapLookup_mapErase,
        if_neg (fun h => hne_klast 0 h0 h.symm), mapLookup_mapErase,
        if_pos rfl]
    · intro i h hi1
      rw [hfull, fdm, hitems 0 h0lt, mapInsert, mapLookup_cons,
        if_neg (hne_klast i h), mapLookup_mapErase,
        if_neg (fun hx => hne_klast i h hx.symm), mapLookup_mapErase,
        if_neg (hget_ne i 0 h h0lt (by omega)), hgeti i h]
    · rw [hfull, fdm, mapInsert, mapLookup_cons, if_pos rfl, hnidN, hlen]
  · -- part two: the first key is read before the last insertion
    intro hN2 h0 h1
    have hlk1 : mapLookup (ks.get ⟨0, h0⟩) (setAll vf now s0 ks).dataMap
        = some 0 := hgeti 0 h0
    have hit0 : (setAll vf now s0 ks).items 0
        = { key := ks.get ⟨0, h0⟩, value := vf (ks.get ⟨0, h0⟩),
            expiration := 0 } := hitems 0 h0
    have hexp0 : ((setAll vf now s0 ks).items 0).Expired fut = false := by
      rw [hit0]
      simp [Item.Expired]
    have hlk1g := hlk1
    simp only [List.get_eq_getElem] at hlk1g
    have gdm : ((Cache.Get (setAll vf now s0 ks) (ks.get ⟨0, h0⟩)
          fut).1).dataMap = (setAll vf now s0 ks).dataMap := by
      simp [Cache.Get, hlk1g, hexp0]
    have gitems : ((Cache.Get (setAll vf now s0 ks) (ks.get ⟨0, h0⟩)
          fut).1).items = (setAll vf now s0 ks).items := by
      simp [Cache.Get, hlk1g, hexp0]
    have gnid : ((Cache.Get (setAll vf now s0 ks) (ks.get ⟨0, h0⟩)
          fut).1).nextId = (setAll vf now s0 ks).nextId := by
      simp [Cache.Get, hlk1g, hexp0]
    have gev : ((Cache.Get (setAll vf now s0 ks) (ks.get ⟨0, h0⟩)
          fut).1).evictions = (setAll vf now s0 ks).evictions := by
      simp [Cache.Get, hlk1g, hexp0]
    have gmax : ((Cache.Get (setAll vf now s0 ks) (ks.get ⟨0, h0⟩)
          fut).1).maxEntries = (setAll vf now s0 ks).maxEntries := by
      simp [Cache.Get, hlk1g, hexp0]
    have glru : ((Cache.Get (setAll vf now s0 ks) (ks.get ⟨0, h0⟩)
          fut).1).lru = moveToFront 0 (setAll vf now s0 ks).lru := by
      simp [Cache.Get, hlk1g, hexp0]
    have hN1 : ks.length - 1 + 1 = ks.length := by omega
    have hN2' : ks.length - 2 + 1 = ks.length - 1 := by omega
    have hdecomp1 : idsOf 0 ks.length = idsOf 1 (ks.length - 1) ++ [0] := by
      have := idsOf_succ 0 (ks.length - 1)
      rwa [hN1] at this
    have hdecomp2 : idsOf 1 (ks.length - 1)
        = idsOf 2 (ks.length - 2) ++ [1] := by
      have := idsOf_succ 1 (ks.length - 2)
      rwa [hN2'] at this
    have h0mem : 0 ∈ idsOf 0 ks.length := by
      rw [mem_idsOf]
      omega
    have h0notmem : (0 : Nat) ∉ idsOf 1 (ks.length - 1) := by
      intro hmem
      have := (mem_idsOf.mp hmem).1
      omega
    have hmove : moveToFront 0 (idsOf 0 ks.length)
        = 0 :: idsOf 1 (ks.length - 1) := by
      rw [moveToFront, if_pos h0mem, hdecomp1,
        List.erase_append_right _ h0notmem, List.erase_cons_head,
        List.append_nil]
    have glrueq : ((Cache.Get (setAll vf now s0 ks) (ks.get ⟨0, h0⟩)
          fut).1).lru = 0 :: idsOf 1 (ks.length - 1) := by
      rw [glru, hlruN, hmove]
    have habsG : mapLookup klast ((Cache.Get (setAll vf now s0 ks)
          (ks.get ⟨0, h0⟩) fut).1).dataMap = none := by
      rw [gdm]
      exact habsN
    have hcapG : 0 < ((Cache.Get (setAll vf now s0 ks) (ks.get ⟨0, h0⟩)
          fut).1).maxEntries ∧
        ((Cache.Get (setAll vf now s0 ks) (ks.get ⟨0, h0⟩)
          fut).1).maxEntries
          ≤ (((Cache.Get (setAll vf now s0 ks) (ks.get ⟨0, h0⟩)
            fut).1).lru.length : Int) := by
      rw [gmax, hmaxN, glrueq, List.length_cons, length_idsOf]
      constructor <;> omega
    have htailG : ((Cache.Get (setAll vf now s0 ks) (ks.get ⟨0, h0⟩)
          fut).1).lru.getLast? = some 1 := by
      rw [glrueq, hdecomp2,
        show (0 : Nat) :: (idsOf 2 (ks.length - 2) ++ [1])
          = (0 :: idsOf 2 (ks.length - 2)) ++ [1] from rfl,
        List.getLast?_concat]
    have hit1 : ((Cache.Get (setAll vf now s0 ks) (ks.get ⟨0, h0⟩)
          fut).1).items 1
        = { key := ks.get ⟨1, h1⟩, value := vf (ks.get ⟨1, h1⟩),
            expiration := 0 } := by
      rw [gitems]
      exact hitems 1 h1
    have fdm2 : (Cache.Set ((Cache.Get (setAll vf now s0 ks)
          (ks.get ⟨0, h0⟩) fut).1) klast (vf klast) 0 now).dataMap
        = mapInsert klast ((Cache.Get (setAll vf now s0 ks)
            (ks.get ⟨0, h0⟩) fut).1).nextId
            (mapErase (((Cache.Get (setAll vf now s0 ks)
              (ks.get ⟨0, h0⟩) fut).1).items 1).key
              ((Cache.Get (setAll vf now s0 ks)
                (ks.get ⟨0, h0⟩) fut).1).dataMap) := by
      simp only [Cache.Set, habsG, if_pos hcapG, evictOldest, htailG]
      rfl
    have fev2 : (Cache.Set ((Cache.Get (setAll vf now s0 ks)
          (ks.get ⟨0, h0⟩) fut).1) klast (vf klast) 0 now).evictions
        = 1 := by
      simp only [Cache.Set, habsG, if_pos hcapG, evictOldest, htailG]
      show (((Cache.Get (setAll vf now s0 ks) (ks.get ⟨0, h0⟩)
        fut).1).evictions + 1) % U64 = 1
      rw [gev, hevN]
      norm_num [U64]
    refine ⟨?_, ?_, ?_, ?_, fev2⟩
    · rw [fdm2, hit1, mapInsert, mapLookup_cons, if_neg (hne_klast 1 h1),
        mapLookup_mapErase, if_neg (fun h => hne_klast 1 h1 h.symm), gdm,
        mapLookup_mapErase, if_pos rfl]
    · rw [fdm2, hit1, mapInsert, mapLookup_cons, if_neg (hne_klast 0 h0),
        mapLookup_mapErase, if_neg (fun h => hne_klast 0 h0 h.symm), gdm,
        mapLookup_mapErase, if_neg (hget_ne 0 1 h0 h1 (by omega)),
        hgeti 0 h0]
    · intro i h hi2
      rw [fdm2, hit1, mapInsert, mapLookup_cons, if_neg (hne_klast i h),
        mapLookup_mapErase, if_neg (fun hx => hne_klast i h hx.symm), gdm,
        mapLookup_mapErase, if_neg (hget_ne i 1 h h1 (by omega)),
        hgeti i h]
    · rw [fdm2, mapInsert, mapLookup_cons, if_pos rfl, gnid, hnidN, hlen]

/-- Claim C4, witness at `N = 2`, keys `"a", "b", "c"`: without a read,
`"a"` is evicted and `"b"`, `"c"` stay; with a read of `"a"` before the
third insert, `"b"` is evicted and `"a"` stays. -/
theorem c4_lru_eviction_order_witness :
    mapLookup "a"
      (setAll (fun _ => (0 : Nat)) 0
        (Cache.New Nat [CacheOption.withMaxEntries 2])
        (["a", "b"] ++ ["c"])).dataMap = none ∧
    mapLookup "b"
      (setAll (fun _ => (0 : Nat)) 0
        (Cache.New Nat [CacheOption.withMaxEntries 2])
        (["a", "b"] ++ ["c"])).dataMap = some 1 ∧
    mapLookup "c"
      (setAll (fun _ => (0 : Nat)) 0
        (Cache.New Nat [CacheOption.withMaxEntries 2])
        (["a", "b"] ++ ["c"])).dataMap = some 2 ∧
    (setAll (fun _ => (0 : Nat)) 0
      (Cache.New Nat [CacheOption.withMaxEntries 2])
      (["a", "b"] ++ ["c"])).evictions = 1 ∧
    mapLookup "b"
      (Cache.Set ((Cache.Get
        (setAll (fun _ => (0 : Nat)) 0
          (Cache.New Nat [CacheOption.withMaxEntries 2]) ["a", "b"])
        "a" 7).1) "c" 0 0 0).dataMap = none ∧
    mapLookup "a"
      (Cache.Set ((Cache.Get
        (setAll (fun _ => (0 : Nat)) 0
          (Cache.New Nat [CacheOption.withMaxEntries 2]) ["a", "b"])
        "a" 7).1) "c" 0 0 0).dataMap = some 0 := by
  have h := c4_lru_eviction_order 2
    (Cache.New Nat [CacheOption.withMaxEntries 2]) ["a", "b"] "c"
    (fun _ => 0) 0 7 (by decide) (by decide) (by decide) (by decide)
    (by decide) (by decide) (by decide)
  have h1 := h.1 (by decide)
  have h2 := h.2 (by decide) (by decide) (by decide)
  exact ⟨h1.1 (by decide), h1.2.1 1 (by decide) (by decide), h1.2.2.1,
    h1.2.2.2, h2.1, h2.2.1⟩
